import Mathlib

/-!
Verification of the filter-and-aggregate pipeline of the global cybersecurity
threats dashboard (`src/app.py`).

The program keeps an immutable in-memory table of incident records and, on each
interaction, derives a filtered view by five `isin` membership tests
(`src/app.py` lines 59-65) and recomputes aggregates from that view
(row counts, column sums, a column mean, distinct counts, frequency tables via
`value_counts`, and a group-by-sum / sort / tail pipeline for the
top-countries chart).

The embedding models the dataframe as a `List Record`, a filter selection as
five lists of allowed values, and each pandas operation as the corresponding
list transformation:

* `df[mask₁ & ... & mask₅]` with `isin` masks  ↦  `List.filter` with the
  conjunction of the five membership tests (`apply_filters`);
* `sorted(df[col].unique())` ↦ `sortedUnique` (first-occurrence deduplication,
  then an ascending sort);
* `len`, `.sum()`, `.mean()`, `.nunique()` ↦ `count`, `sum_field`,
  `mean_field`, `distinct_count`; `Series.mean` of an empty series yields the
  non-numeric marker NaN, modelled as `Option.none`;
* `Series.value_counts()` ↦ `value_counts`: the frequency table of the values
  in first-occurrence order, stably sorted by count descending.  A stable
  descending sort of a first-occurrence-ordered table coincides with sorting
  by the total lexicographic order "greater count first, earlier first
  occurrence first", which is the relation `countOrder` used here;
* `groupby(k)[m].sum().sort_values(ascending=True).tail(n)` ↦ `top_n_by`.

Numeric columns (floats in the CSV) are modelled as `ℚ`; the claims proved
here are order-theoretic and algebraic, not about rounding.
-/

open List

namespace Dashboard

/-- One row of the dataset: one cybersecurity incident with its categorical and
numeric attributes (the columns of `Global_Cybersecurity_Threats_2015-2024.csv`
used by `src/app.py`; the optional `lat`/`lon` columns feed only the map
rendering and are not part of the core pipeline). -/
structure Record where
  year : Int
  country : String
  attack_type : String
  target_industry : String
  attack_source : String
  vulnerability_type : String
  defense_mechanism : String
  financial_loss_musd : ℚ
  affected_users : Nat
  resolution_time_hours : ℚ
deriving DecidableEq, Repr

/-- Filter Selection: the five lists of allowed values chosen in the sidebar
multiselect widgets (`selected_years`, `selected_countries`,
`selected_attack_types`, `selected_industries`, `selected_sources`,
`src/app.py` lines 43-55). -/
structure Selection where
  years : List Int
  countries : List String
  attack_types : List String
  industries : List String
  sources : List String
deriving DecidableEq, Repr

/-- The row mask of `src/app.py` lines 59-65: the five `isin` membership tests
combined with `&`. -/
def rowPred (s : Selection) (r : Record) : Bool :=
  decide (r.year ∈ s.years) && decide (r.country ∈ s.countries) &&
    decide (r.attack_type ∈ s.attack_types) &&
    decide (r.target_industry ∈ s.industries) &&
    decide (r.attack_source ∈ s.sources)

/-- The Filter Engine: `filtered_df = df[mask]` (`src/app.py` lines 59-65),
keeping exactly the rows whose mask is true, in dataframe order. -/
def apply_filters (d : List Record) (s : Selection) : List Record :=
  d.filter (rowPred s)

/-- Worker of `firstDedup`: emits each element not already seen, in order,
threading the list of values seen so far. -/
def firstDedupAux {α : Type} [DecidableEq α] (seen : List α) : List α → List α
  | [] => []
  | a :: l => if a ∈ seen then firstDedupAux seen l else a :: firstDedupAux (a :: seen) l

/-- Deduplication keeping the first occurrence of each value, in order of first
occurrence: the semantics of pandas `Series.unique` and of the group keys
produced by `value_counts`/`groupby`. -/
def firstDedup {α : Type} [DecidableEq α] (l : List α) : List α := firstDedupAux [] l

theorem mem_firstDedupAux {α : Type} [DecidableEq α] (a : α) (l : List α) :
    ∀ seen : List α, a ∈ firstDedupAux seen l ↔ a ∈ l ∧ a ∉ seen := by
  induction l with
  | nil => intro seen; simp [firstDedupAux]
  | cons b l ih =>
    intro seen
    by_cases hab : a = b
    · subst hab
      by_cases hb : a ∈ seen <;> simp [firstDedupAux, hb, ih]
    · by_cases hb : b ∈ seen <;> simp [firstDedupAux, hb, hab, ih]

theorem mem_firstDedup {α : Type} [DecidableEq α] (a : α) (l : List α) :
    a ∈ firstDedup l ↔ a ∈ l := by
  simp [firstDedup, mem_firstDedupAux]

theorem nodup_firstDedupAux {α : Type} [DecidableEq α] (l : List α) :
    ∀ seen : List α, (firstDedupAux seen l).Nodup := by
  induction l with
  | nil => intro seen; simp [firstDedupAux]
  | cons b l ih =>
    intro seen
    by_cases hb : b ∈ seen
    · simpa [firstDedupAux, hb] using ih seen
    · simp only [firstDedupAux, if_neg hb]
      refine List.nodup_cons.mpr ⟨fun hmem => ?_, ih (b :: seen)⟩
      have hcontra := (mem_firstDedupAux b l (b :: seen)).mp hmem
      simp at hcontra

theorem nodup_firstDedup {α : Type} [DecidableEq α] (l : List α) :
    (firstDedup l).Nodup :=
  nodup_firstDedupAux l []

theorem firstDedup_perm_dedup {α : Type} [DecidableEq α] (l : List α) :
    firstDedup l ~ l.dedup :=
  (List.perm_ext_iff_of_nodup (nodup_firstDedup l) l.nodup_dedup).mpr
    (fun a => by simp [mem_firstDedup, List.mem_dedup])

/-- The option list of one sidebar widget: `sorted(df[col].unique())`
(`src/app.py` lines 42-55). -/
def sortedUnique {α : Type} [DecidableEq α] [LinearOrder α] (l : List α) : List α :=
  List.insertionSort (fun a b => a ≤ b) (firstDedup l)

theorem mem_sortedUnique {α : Type} [DecidableEq α] [LinearOrder α] (a : α) (l : List α) :
    a ∈ sortedUnique l ↔ a ∈ l := by
  simp [sortedUnique, mem_firstDedup]

/-- The default Filter Selection: every observed value of every dimension is
selected (`default=years`, `default=countries`, ... in `src/app.py`
lines 43-55). -/
def full_selection (d : List Record) : Selection :=
  ⟨sortedUnique (d.map Record.year),
   sortedUnique (d.map Record.country),
   sortedUnique (d.map Record.attack_type),
   sortedUnique (d.map Record.target_industry),
   sortedUnique (d.map Record.attack_source)⟩

theorem mem_apply_filters (d : List Record) (s : Selection) (r : Record) :
    r ∈ apply_filters d s ↔
      r ∈ d ∧ r.year ∈ s.years ∧ r.country ∈ s.countries ∧
        r.attack_type ∈ s.attack_types ∧ r.target_industry ∈ s.industries ∧
        r.attack_source ∈ s.sources := by
  simp [apply_filters, rowPred, List.mem_filter, and_assoc]

/-- Claim C1: a record belongs to `apply_filters d s` exactly when it belongs
to `d` and its value in each of the five dimensions is a member of the
corresponding selection list: every record of the result satisfies the
conjunction of the five membership tests, and no record of `d` outside the
result satisfies it. -/
theorem apply_filters_mem_iff (d : List Record) (s : Selection) (r : Record) :
    r ∈ apply_filters d s ↔
      r ∈ d ∧ r.year ∈ s.years ∧ r.country ∈ s.countries ∧
        r.attack_type ∈ s.attack_types ∧ r.target_industry ∈ s.industries ∧
        r.attack_source ∈ s.sources :=
  mem_apply_filters d s r

/-- Claim C3: `apply_filters d s` is a subsequence of `d`: every result row is
a row of `d` and the rows appear in the same relative order as in `d`. -/
theorem apply_filters_sublist (d : List Record) (s : Selection) :
    apply_filters d s <+ d :=
  List.filter_sublist d

/-- Claim C4: filtering with the default full selection (every observed value
of every dimension selected) returns the whole dataset unchanged. -/
theorem apply_filters_full_selection (d : List Record) :
    apply_filters d (full_selection d) = d := by
  refine List.filter_eq_self.mpr (fun r hr => ?_)
  simp only [rowPred, full_selection, Bool.and_eq_true, decide_eq_true_eq,
    mem_sortedUnique, List.mem_map]
  exact ⟨⟨⟨⟨⟨r, hr, rfl⟩, ⟨r, hr, rfl⟩⟩, ⟨r, hr, rfl⟩⟩, ⟨r, hr, rfl⟩⟩, ⟨r, hr, rfl⟩⟩

/-- Claim C5: if any of the five selection lists is empty, the filtered view is
empty; an empty selection is never read as "all values". -/
theorem apply_filters_empty_selection (d : List Record) (s : Selection)
    (h : s.years = [] ∨ s.countries = [] ∨ s.attack_types = [] ∨
      s.industries = [] ∨ s.sources = []) :
    apply_filters d s = [] := by
  refine List.filter_eq_nil_iff.mpr (fun r hr hp => ?_)
  simp only [rowPred, Bool.and_eq_true, decide_eq_true_eq] at hp
  obtain ⟨⟨⟨⟨h1, h2⟩, h3⟩, h4⟩, h5⟩ := hp
  rcases h with h | h | h | h | h
  · rw [h] at h1
    exact List.not_mem_nil _ h1
  · rw [h] at h2
    exact List.not_mem_nil _ h2
  · rw [h] at h3
    exact List.not_mem_nil _ h3
  · rw [h] at h4
    exact List.not_mem_nil _ h4
  · rw [h] at h5
    exact List.not_mem_nil _ h5

/-- One concrete incident record used by the witnesses. -/
def demoRecord : Record :=
  ⟨2020, "USA", "Phishing", "Finance", "Hacker Group", "Zero-day", "VPN",
    5, 100, 12⟩

/-- A selection whose country list is empty (and whose other lists match
`demoRecord`). -/
def demoEmptySel : Selection :=
  ⟨[2020], [], ["Phishing"], ["Finance"], ["Hacker Group"]⟩

/-- Witness for C5: filtering a one-record dataset with an empty country
selection yields the empty view. -/
theorem apply_filters_empty_selection_witness :
    apply_filters [demoRecord] demoEmptySel = [] :=
  apply_filters_empty_selection [demoRecord] demoEmptySel (Or.inr (Or.inl rfl))

/-- Claim C10: filtering is idempotent: applying the same five-dimension
membership filter to an already filtered view changes nothing. -/
theorem apply_filters_idem (d : List Record) (s : Selection) :
    apply_filters (apply_filters d s) s = apply_filters d s := by
  refine List.filter_eq_self.mpr (fun r hr => ?_)
  simp only [apply_filters, List.mem_filter] at hr
  exact hr.2

/-- The KPI row count of the filtered view, `len(filtered_df)`
(`src/app.py` line 79). -/
def count (view : List Record) : Nat := view.length

/-- Column sum over the filtered view, `filtered_df[field].sum()`
(`src/app.py` lines 83 and 90); the sum of an empty series is 0. -/
def sum_field (view : List Record) (f : Record → ℚ) : ℚ := (view.map f).sum

/-- Column mean over the filtered view, `filtered_df[field].mean()`
(`src/app.py` line 97).  On an empty series pandas `Series.mean` does not
raise: it yields the non-numeric marker NaN, modelled here as the sentinel
`Option.none`; on a nonempty series it is the sum divided by the row count. -/
def mean_field (view : List Record) (f : Record → ℚ) : Option ℚ :=
  if view.length = 0 then none else some (sum_field view f / view.length)

/-- Distinct count of a categorical column, `filtered_df[field].nunique()`
(`src/app.py` line 106). -/
def distinct_count (view : List Record) (f : Record → String) : Nat :=
  (firstDedup (view.map f)).length

/-- The frequency table before sorting: each distinct value of the series in
order of first occurrence, paired with its number of occurrences (the state of
the pandas counting hash table before `value_counts` sorts it). -/
def keyCounts (l : List String) : List (String × Nat) :=
  (firstDedup l).map (fun v => (v, l.count v))

/-- The order in which pandas `Series.value_counts` lists its rows: greater
count first; among equal counts, the value whose first occurrence in the
series comes earlier is listed first (the counting hash table holds keys in
first-occurrence order and the sort by count is stable, which is exactly a
sort by this total lexicographic relation). -/
def countOrder (l : List String) (a b : String × Nat) : Prop :=
  b.2 < a.2 ∨ (a.2 = b.2 ∧ l.indexOf a.1 ≤ l.indexOf b.1)

instance (l : List String) : DecidableRel (countOrder l) := fun a b =>
  decidable_of_iff (b.2 < a.2 ∨ (a.2 = b.2 ∧ l.indexOf a.1 ≤ l.indexOf b.1)) Iff.rfl

instance (l : List String) : IsTotal (String × Nat) (countOrder l) := ⟨by
  intro a b
  rcases Nat.lt_trichotomy a.2 b.2 with h | h | h
  · exact Or.inr (Or.inl h)
  · rcases Nat.le_total (l.indexOf a.1) (l.indexOf b.1) with hi | hi
    · exact Or.inl (Or.inr ⟨h, hi⟩)
    · exact Or.inr (Or.inr ⟨h.symm, hi⟩)
  · exact Or.inl (Or.inl h)⟩

instance (l : List String) : IsTrans (String × Nat) (countOrder l) := ⟨by
  intro a b c hab hbc
  rcases hab with hab | ⟨hab1, hab2⟩ <;> rcases hbc with hbc | ⟨hbc1, hbc2⟩
  · exact Or.inl (hbc.trans hab)
  · exact Or.inl (by omega)
  · exact Or.inl (by omega)
  · exact Or.inr ⟨by omega, le_trans hab2 hbc2⟩⟩

/-- Frequency table of a categorical column,
`filtered_df[field].value_counts()` (`src/app.py` lines 153, 167, 200, 233,
250): the (value, count) pairs sorted by count descending, ties listed in
first-occurrence order. -/
def value_counts (view : List Record) (f : Record → String) : List (String × Nat) :=
  List.insertionSort (countOrder (view.map f)) (keyCounts (view.map f))

/-- Claim C2: the mean of a numeric column over an empty view is the
detectable "no data" sentinel (`Option.none`, modelling the NaN produced by
`Series.mean` on zero rows), not an exception and not a numeric value. -/
theorem mean_field_empty (f : Record → ℚ) : mean_field [] f = none := rfl

/-- Claim C6: every aggregation except the mean is total on the empty view and
returns its zero/empty default: the row count is 0, every column sum is 0,
every distinct count is 0, and every frequency table is empty. -/
theorem empty_view_aggregates :
    count ([] : List Record) = 0 ∧
      (∀ f : Record → ℚ, sum_field [] f = 0) ∧
      (∀ g : Record → String, distinct_count [] g = 0) ∧
      (∀ g : Record → String, value_counts [] g = []) := by
  exact ⟨rfl, fun f => rfl, fun g => rfl, fun g => rfl⟩

theorem value_counts_perm_keyCounts (view : List Record) (f : Record → String) :
    value_counts view f ~ keyCounts (view.map f) :=
  List.perm_insertionSort _ _

/-- Claim C9: the counts in a frequency table sum to the number of rows of the
view. -/
theorem value_counts_sum_eq_count (view : List Record) (f : Record → String) :
    ((value_counts view f).map Prod.snd).sum = count view := by
  have h1 : ((value_counts view f).map Prod.snd).sum
      = ((keyCounts (view.map f)).map Prod.snd).sum :=
    ((value_counts_perm_keyCounts view f).map Prod.snd).sum_eq
  have h2 : (keyCounts (view.map f)).map Prod.snd
      = (firstDedup (view.map f)).map (fun v => (view.map f).count v) := by
    simp [keyCounts, List.map_map, Function.comp]
  have h3 : ((firstDedup (view.map f)).map (fun v => (view.map f).count v)).sum
      = (((view.map f).dedup).map (fun v => (view.map f).count v)).sum :=
    ((firstDedup_perm_dedup (view.map f)).map _).sum_eq
  rw [h1, h2, h3, List.sum_map_count_dedup_eq_length]
  simp [count]

theorem value_counts_keys_eq (view : List Record) (f : Record → String) :
    (keyCounts (view.map f)).map Prod.fst = firstDedup (view.map f) := by
  simp [keyCounts, List.map_map, Function.comp_def]

theorem nodup_value_counts_keys (view : List Record) (f : Record → String) :
    ((value_counts view f).map Prod.fst).Nodup := by
  refine (((value_counts_perm_keyCounts view f).map Prod.fst).nodup_iff).mpr ?_
  rw [value_counts_keys_eq]
  exact nodup_firstDedup _

theorem value_counts_keys_mem (view : List Record) (f : Record → String)
    {p : String × Nat} (hp : p ∈ value_counts view f) : p.1 ∈ view.map f := by
  have h1 := (value_counts_perm_keyCounts view f).mem_iff.mp hp
  rw [keyCounts] at h1
  obtain ⟨v, hv, hpv⟩ := List.mem_map.mp h1
  rw [← hpv]
  exact (mem_firstDedup v _).mp hv

/-- Claim C7: the frequency table is sorted by count in descending order, and
any two values with equal counts appear in the order of their first
occurrences in the view. -/
theorem value_counts_desc_ties (view : List Record) (f : Record → String)
    (i j : Nat) (hij : i < j) (hj : j < (value_counts view f).length) :
    ((value_counts view f).getD j ("", 0)).2 ≤ ((value_counts view f).getD i ("", 0)).2 ∧
      (((value_counts view f).getD i ("", 0)).2 = ((value_counts view f).getD j ("", 0)).2 →
        (view.map f).indexOf ((value_counts view f).getD i ("", 0)).1 <
          (view.map f).indexOf ((value_counts view f).getD j ("", 0)).1) := by
  have hi : i < (value_counts view f).length := hij.trans hj
  rw [List.getD_eq_getElem _ _ hi, List.getD_eq_getElem _ _ hj]
  have hsor : List.Sorted (countOrder (view.map f)) (value_counts view f) :=
    List.sorted_insertionSort _ _
  have hrel := hsor.rel_get_of_lt
    (show (⟨i, hi⟩ : Fin (value_counts view f).length) < ⟨j, hj⟩ from Fin.mk_lt_mk.mpr hij)
  simp only [List.get_eq_getElem, Fin.val_mk] at hrel
  have hne : (value_counts view f)[i].1 ≠ (value_counts view f)[j].1 := by
    intro hcontra
    have hi2 : i < ((value_counts view f).map Prod.fst).length := by
      simpa using hi
    have hj2 : j < ((value_counts view f).map Prod.fst).length := by
      simpa using hj
    have hmapeq : ((value_counts view f).map Prod.fst)[i] =
        ((value_counts view f).map Prod.fst)[j] := by
      simpa [List.getElem_map] using hcontra
    have heqij := ((nodup_value_counts_keys view f).getElem_inj_iff).mp hmapeq
    omega
  have hmi : (value_counts view f)[i].1 ∈ view.map f :=
    value_counts_keys_mem view f (List.getElem_mem hi)
  have hmj : (value_counts view f)[j].1 ∈ view.map f :=
    value_counts_keys_mem view f (List.getElem_mem hj)
  rcases hrel with hlt | ⟨heq, hle⟩
  · exact ⟨le_of_lt hlt, fun hcontra => absurd hcontra (by omega)⟩
  · refine ⟨le_of_eq heq.symm, fun hcontra => ?_⟩
    exact lt_of_le_of_ne hle
      (fun hidx => hne ((List.indexOf_inj hmi hmj).mp hidx))

/-- A constructor for demo incidents differing only in attack type. -/
def mkIncident (t : String) : Record :=
  ⟨2020, "USA", t, "Finance", "Hacker Group", "Zero-day", "VPN", 5, 100, 12⟩

/-- A five-row view with attack types B, A, A, B, C: counts B:2 and A:2 tie,
and B is first-encountered before A. -/
def demoView : List Record :=
  [mkIncident "B", mkIncident "A", mkIncident "A", mkIncident "B", mkIncident "C"]

/-- Witness for C7 at the concrete view `demoView`, positions 0 and 1 of its
frequency table (a tie of counts resolved by first occurrence). -/
theorem value_counts_desc_ties_witness :
    ((value_counts demoView Record.attack_type).getD 1 ("", 0)).2 ≤
        ((value_counts demoView Record.attack_type).getD 0 ("", 0)).2 ∧
      (((value_counts demoView Record.attack_type).getD 0 ("", 0)).2 =
          ((value_counts demoView Record.attack_type).getD 1 ("", 0)).2 →
        (demoView.map Record.attack_type).indexOf
            ((value_counts demoView Record.attack_type).getD 0 ("", 0)).1 <
          (demoView.map Record.attack_type).indexOf
            ((value_counts demoView Record.attack_type).getD 1 ("", 0)).1) :=
  value_counts_desc_ties demoView Record.attack_type 0 1 (by decide) (by decide)

/-- Ascending comparison of groups by their summed metric: the sort key of
`sort_values(ascending=True)` in the top-countries pipeline
(`src/app.py` line 219). -/
def sumOrder (a b : String × ℚ) : Prop := a.2 ≤ b.2

instance : DecidableRel sumOrder := fun a b => decidable_of_iff (a.2 ≤ b.2) Iff.rfl

instance : IsTotal (String × ℚ) sumOrder := ⟨fun a b => le_total a.2 b.2⟩

instance : IsTrans (String × ℚ) sumOrder := ⟨fun _ _ _ => le_trans⟩

/-- The group totals `filtered_df.groupby(group_field)[metric].sum()`
(`src/app.py` lines 216-218): one pair per distinct key, carrying the sum of
the metric over the rows having that key. -/
def group_sums (view : List Record) (key : Record → String) (metric : Record → ℚ) :
    List (String × ℚ) :=
  (firstDedup (view.map key)).map
    (fun k => (k, ((view.filter (fun r => decide (key r = k))).map metric).sum))

/-- The top-n pipeline
`groupby(group_field)[metric].sum().sort_values(ascending=True).tail(n)`
(`src/app.py` lines 216-221): group, sum the metric per group, sort ascending
by the summed metric, keep the last `n` entries. -/
def top_n_by (view : List Record) (key : Record → String) (metric : Record → ℚ)
    (n : Nat) : List (String × ℚ) :=
  (List.insertionSort sumOrder (group_sums view key metric)).drop
    ((List.insertionSort sumOrder (group_sums view key metric)).length - n)

theorem sorted_getLast_max {l : List (String × ℚ)} (hsor : List.Sorted sumOrder l)
    (hl : l ≠ []) {p : String × ℚ} (hp : p ∈ l) : p.2 ≤ (l.getLast hl).2 := by
  obtain ⟨⟨k, hk⟩, rfl⟩ := List.mem_iff_get.mp hp
  rw [List.getLast_eq_getElem]
  by_cases hkl : k < l.length - 1
  · have hrel := hsor.rel_get_of_lt
      (show (⟨k, hk⟩ : Fin l.length) < ⟨l.length - 1, by omega⟩ from Fin.mk_lt_mk.mpr hkl)
    simpa [sumOrder, List.get_eq_getElem] using hrel
  · have hk1 : k = l.length - 1 := by omega
    subst hk1
    simp [List.get_eq_getElem]

theorem group_sums_ne_nil {view : List Record} (hv : view ≠ [])
    (key : Record → String) (metric : Record → ℚ) :
    group_sums view key metric ≠ [] := by
  obtain ⟨r, view2, rfl⟩ := List.exists_cons_of_ne_nil hv
  simp [group_sums, firstDedup, firstDedupAux]

/-- Claim C8: the top-n pipeline returns at most `n` groups, still in ascending
order of summed metric, as a suffix (the largest entries) of the full
ascending-sorted group totals; when the view is nonempty and `n ≥ 1`, the last
returned entry carries the globally maximal summed metric over all groups. -/
theorem top_n_by_spec (view : List Record) (key : Record → String)
    (metric : Record → ℚ) (n : Nat) :
    (top_n_by view key metric n).length ≤ n ∧
      top_n_by view key metric n <:+
        List.insertionSort sumOrder (group_sums view key metric) ∧
      List.Sorted sumOrder (top_n_by view key metric n) ∧
      (view ≠ [] → 0 < n →
        ∃ q, (top_n_by view key metric n).getLast? = some q ∧
          ∀ p ∈ group_sums view key metric, p.2 ≤ q.2) := by
  refine ⟨?_, ?_, ?_, ?_⟩
  · simp only [top_n_by, List.length_drop]
    omega
  · exact List.drop_suffix _ _
  · exact List.Pairwise.sublist (List.drop_sublist _ _) (List.sorted_insertionSort _ _)
  · intro hv hn
    have hg := group_sums_ne_nil hv key metric
    have hslen : 0 < (List.insertionSort sumOrder (group_sums view key metric)).length := by
      rw [(List.perm_insertionSort sumOrder (group_sums view key metric)).length_eq]
      exact List.length_pos.mpr hg
    have hs : List.insertionSort sumOrder (group_sums view key metric) ≠ [] :=
      List.length_pos.mp hslen
    have hdrop : (List.insertionSort sumOrder (group_sums view key metric)).length - n <
        (List.insertionSort sumOrder (group_sums view key metric)).length :=
      Nat.sub_lt hslen hn
    rw [top_n_by, List.getLast?_drop, if_neg (by omega), List.getLast?_eq_getLast _ hs]
    refine ⟨_, rfl, fun p hp => ?_⟩
    exact sorted_getLast_max (List.sorted_insertionSort _ _) hs
      ((List.mem_insertionSort sumOrder).mpr hp)

/-- A second demo incident, in a different country with a larger loss. -/
def demoRecordUK : Record :=
  ⟨2021, "UK", "Ransomware", "Healthcare", "Nation-state", "Unpatched Software",
    "Firewall", 10, 200, 24⟩

/-- A two-row view over two countries with different total losses. -/
def demoView2 : List Record := [demoRecord, demoRecordUK]

/-- Witness for C8 at the concrete view `demoView2` with the country /
financial-loss instance and `n = 15`, with the nonemptiness hypotheses
discharged. -/
theorem top_n_by_spec_witness :
    (top_n_by demoView2 Record.country Record.financial_loss_musd 15).length ≤ 15 ∧
      top_n_by demoView2 Record.country Record.financial_loss_musd 15 <:+
        List.insertionSort sumOrder
          (group_sums demoView2 Record.country Record.financial_loss_musd) ∧
      List.Sorted sumOrder (top_n_by demoView2 Record.country Record.financial_loss_musd 15) ∧
      ∃ q, (top_n_by demoView2 Record.country Record.financial_loss_musd 15).getLast? =
          some q ∧
        ∀ p ∈ group_sums demoView2 Record.country Record.financial_loss_musd, p.2 ≤ q.2 := by
  obtain ⟨h1, h2, h3, h4⟩ :=
    top_n_by_spec demoView2 Record.country Record.financial_loss_musd 15
  exact ⟨h1, h2, h3, h4 (by decide) (by decide)⟩

end Dashboard
